import Mathlib

/-
Verification of the framing / batch-compression layer of `src/_compress.pyx`.

Modelling conventions:
* A byte buffer is a `List Nat` of memory bytes (each byte < 256 where it comes
  from real memory; loads reduce mod 256 exactly as the `uint8_t` reads do).
* The native LZ4 codec (`LZ4_compressBound`, `LZ4_compress_default` /
  `LZ4_compress_HC`, `LZ4_decompress_safe`, `LZ4F_compressFrame_default`) is an
  external collaborator, declared out of scope by the specification; it is a
  parameter (`Codec`).  A C return value of `0` from the block compressor is
  represented by an empty output list, `NULL` from the frame compressor by
  `none`.
* Machine integers are `Nat` / `Int` with explicit reductions: `uint32_t`
  arithmetic is `% 2 ^ 32`, the usual-arithmetic-conversion of a C `int` to
  `uint32_t` is `Int.emod · (2 ^ 32)`, and the conversion of a `uint32_t`
  value to a C `int` parameter is `toInt32`.
* `decompress` reads its 4-byte header with `load_le32(cString)` without any
  length check; for inputs shorter than 4 bytes the C code reads past the end
  of the buffer.  The bytes of memory that follow the input are made an
  explicit parameter (`oob`), so that out-of-bounds behaviour is expressed
  rather than invented.
* `prange(..., schedule='static')` loops whose iterations write disjoint
  output slots are modelled by an explicit execution order (`order`, any
  permutation of the index range) acting on a slot map, plus a sequential
  reading pass, mirroring the join barrier and the index-ordered cast-back.
-/

namespace Arctic

/-- Conversion of a machine word to a C `int` (32-bit two's complement):
values with bit 31 set become negative. -/
def toInt32 (n : Nat) : Int :=
  if n % 2 ^ 32 < 2 ^ 31 then ((n % 2 ^ 32 : Nat) : Int)
  else ((n % 2 ^ 32 : Nat) : Int) - 2 ^ 32

/-- store_le32: c[0] = x and 0xff, c[1] = (x >> 8) and 0xff,
c[2] = (x >> 16) and 0xff, c[3] = (x >> 24) and 0xff. -/
def store_le32 (x : Nat) : List Nat :=
  [x % 256, x / 256 % 256, x / 65536 % 256, x / 16777216 % 256]

/-- load_le32: d[0] or (d[1] << 8) or (d[2] << 16) or (d[3] << 24), where the
four bytes are read as `uint8_t` from memory. -/
def load_le32 (c : List Nat) : Nat :=
  c.getD 0 0 % 256 + c.getD 1 0 % 256 * 256 +
    c.getD 2 0 % 256 * 65536 + c.getD 3 0 % 256 * 16777216

/-- The opaque native codec, as declared in the extern blocks of the source.
`compressBlock src srcSize dstCap isHc` stands for `LZ4_compress_default` /
`LZ4_compress_HC` and returns the bytes written into the destination (an empty
list models the C return value `0`, i.e. native failure).
`decompressSafe src srcSize dstCap` stands for `LZ4_decompress_safe` and
returns the `int` result together with the bytes left in the destination
buffer.  `compressFrame` is `LZ4F_compressFrame_default`.

Modelled from the spec: `LZ4F_compressFrame_default` lives in
`lz4f_toplevel.c`, which is not under `src/`; per the spec it is the native
self-framing compressor, returning `NULL` (here `none`) on failure and
otherwise a fresh buffer whose first `pyHeaderLen` (= 4) bytes are reserved
for the caller's header, followed by the framed output, with
`*compressed_size` set to the framed output's length. -/
structure Codec where
  compressBound : Int → Nat
  compressBlock : List Nat → Int → Nat → Bool → List Nat
  decompressSafe : List Nat → Int → Int → Int × List Nat
  compressFrame : List Nat → Option (List Nat)

/-- hdr_size = sizeof(uint32_t). -/
def hdr_size : Nat := 4

/-- cdef _compress(pString, pIsHc): bound the output, allocate bound + 4
bytes, store the original length little-endian at offset 0, compress into
offset 4, and return the first `compressed_size + hdr_size` bytes.  There is
no check of the native return value: if it is 0 the returned frame is the
bare 4-byte header. -/
def _compress (c : Codec) (pString : List Nat) (pIsHc : Bool) : List Nat :=
  let original_size : Nat := pString.length % 2 ^ 32
  let bound : Nat := c.compressBound (toInt32 original_size)
  let out : List Nat := c.compressBlock pString (toInt32 original_size) bound pIsHc
  store_le32 original_size ++ out

/-- def compress(pString): return _compress(pString, False). -/
def compress (c : Codec) (pString : List Nat) : List Nat :=
  _compress c pString false

/-- def compressHC(pString): return _compress(pString, True). -/
def compressHC (c : Codec) (pString : List Nat) : List Nat :=
  _compress c pString true

/-- def decompress(pString): read the header with load_le32 (no length
check: for inputs shorter than 4 bytes the bytes that happen to follow the
buffer, the `oob` parameter, are read), allocate `original_size` bytes, call
the native decompressor on `cString + 4` with source size
`compressed_size - hdr_size` computed in `uint32_t` arithmetic and then
passed as a C `int`, and raise the generic exception iff the return value,
converted to `uint32_t`, differs from the header value. -/
def decompress (c : Codec) (oob : List Nat) (pString : List Nat) :
    Except String (List Nat) :=
  let compressed_size : Nat := pString.length % 2 ^ 32
  let original_size : Nat := load_le32 ((pString ++ oob).take 4)
  let r := c.decompressSafe (pString.drop 4)
      (toInt32 ((compressed_size + 2 ^ 32 - 4) % 2 ^ 32)) (toInt32 original_size)
  if r.1 % (2 ^ 32 : Int) ≠ (original_size : Int) then
    Except.error "Error decompressing"
  else
    Except.ok (r.2.take original_size)

/-- One write of a worker into its disjoint output slot (`cResult[i] = result`,
`lengths[i] = ...`). -/
def slotWrite (slots : Nat → Option (List Nat)) (i : Nat) (v : List Nat) :
    Nat → Option (List Nat) :=
  fun j => if j = i then some v else slots j

/-- Execution of the prange body of `_compressarr` on the indices of `order`,
in that order; each iteration stores the frame built by the `_compress`
pipeline into its own slot. -/
def runSched (c : Codec) (pIsHc : Bool) (inp : List (List Nat)) :
    List Nat → (Nat → Option (List Nat)) → Nat → Option (List Nat)
  | [], slots => slots
  | i :: rest, slots =>
      runSched c pIsHc inp rest
        (slotWrite slots i (_compress c (inp.getD i []) pIsHc))

/-- cdef _compressarr(pStrList, pIsHc) with an explicit worker execution order
`order`: empty input returns [] with no work dispatched; otherwise every index
of `order` runs the per-item compression body (identical to `_compress`; the
`int` / `uint32_t` casts of the batch version agree with the single-item
version on the passed bit patterns), and after the join barrier the slots are
read back in index order. -/
def compressarrSched (c : Codec) (inp : List (List Nat)) (pIsHc : Bool)
    (order : List Nat) : List (List Nat) :=
  if inp.length = 0 then []
  else
    let final := runSched c pIsHc inp order (fun _ => none)
    (List.range inp.length).map (fun i => (final i).getD [])

/-- cdef _compressarr(pStrList, pIsHc): the canonical (index-ordered)
schedule. -/
def _compressarr (c : Codec) (l : List (List Nat)) (pIsHc : Bool) :
    List (List Nat) :=
  compressarrSched c l pIsHc (List.range l.length)

/-- def compressarr(pStrList): return _compressarr(pStrList, False). -/
def compressarr (c : Codec) (l : List (List Nat)) : List (List Nat) :=
  _compressarr c l false

/-- def compressarrHC(pStrList): return _compressarr(pStrList, True). -/
def compressarrHC (c : Codec) (l : List (List Nat)) : List (List Nat) :=
  _compressarr c l true

/-- The prange body of `decompressarr` for one item: header read (again with
the out-of-bounds bytes explicit), native call, and the data the loop leaves
behind: the return value, the destination buffer, and `original_size`
(assigned to `lengths[i]`). -/
def decompItem (c : Codec) (oob pString : List Nat) : Int × List Nat × Nat :=
  let compressed_size : Nat := pString.length % 2 ^ 32
  let original_size : Nat := load_le32 ((pString ++ oob).take 4)
  let r := c.decompressSafe (pString.drop 4)
      (toInt32 ((compressed_size + 2 ^ 32 - 4) % 2 ^ 32)) (toInt32 original_size)
  (r.1, r.2, original_size)

/-- The per-item failure test of `decompressarr`:
`if ret <= 0 or ret != original_size: error = -1` (the second comparison is
`int` against `uint32_t`, hence performed on the `uint32_t` image of `ret`). -/
def itemFailed (it : Int × List Nat × Nat) : Bool :=
  decide (it.1 ≤ 0 ∨ it.1 % (2 ^ 32 : Int) ≠ (it.2.2 : Int))

/-- def decompressarr(pStrList): empty input returns []; otherwise every item
runs the decompression body and all buffers are cast back
(`cResult[i][:lengths[i]]`).  The failure flag `error = -1` is a plain
assignment inside the prange body, hence (Cython) lastprivate: each thread
works on a private copy (modelled as starting from the pre-loop value 0; an
uninitialized private copy behaves the same at the `error == -1` test unless
it happens to hold exactly -1), and the value read after the join barrier is
the copy of the thread that executed the sequentially last iteration.  Under
`schedule='static'` that thread owns a contiguous chunk of indices ending at
the last one; `lastStart` is that chunk's first index (0 when a single
thread runs the whole range).  The generic exception is therefore raised
only when some item of that final chunk fails its check — failures in other
threads' chunks never reach it. -/
def decompressarr (c : Codec) (oobF : Nat → List Nat) (lastStart : Nat)
    (l : List (List Nat)) : Except String (List (List Nat)) :=
  if l.length = 0 then Except.ok []
  else
    let items := (List.range l.length).map (fun i => decompItem c (oobF i) (l.getD i []))
    let error := ((List.range l.length).drop lastStart).any
        (fun i => itemFailed (decompItem c (oobF i) (l.getD i [])))
    let result_list := items.map (fun it => it.2.1.take it.2.2)
    if error then Except.error "Error decompressing array"
    else Except.ok result_list

/-- def compressFrame(pString): call the native frame compressor with
`pyHeaderLen = hdr_size`; on `NULL` fall through (return None).  On success
the buffer holds 4 reserved bytes followed by the framed output `f`;
`store_le32(result, original_size)` writes the header into the reserved
bytes, and the returned slice is `result[hdr_size : compressed_size +
hdr_size]` — it starts at offset 4, so the stored header is not part of the
returned value. -/
def compressFrame (c : Codec) (pString : List Nat) : Option (List Nat) :=
  let original_size : Nat := pString.length % 2 ^ 32
  match c.compressFrame pString with
  | none => none
  | some f => some (((store_le32 original_size ++ f).drop 4).take (f.length + 4 - 4))

/-- def compressarrFrame(pStrList): empty input returns []; otherwise every
item is handed to the native frame compressor (`NULL` results keep their
slot); in the cast-back loop only non-NULL slots are appended, after storing
into their reserved header bytes the stale `original_size` left over from the
loop (Cython lastprivate: the value of the sequentially last iteration, i.e.
the last item's length) — a store that the slice
`cResult[i][hdr_size:lengths[i]]` then discards. -/
def compressarrFrame (c : Codec) (l : List (List Nat)) : List (List Nat) :=
  if l.length = 0 then []
  else
    let stale : Nat := (l.getLast?.getD []).length % 2 ^ 32
    let items := l.map (fun s => c.compressFrame s)
    items.filterMap (fun r =>
      match r with
      | none => none
      | some f => some (((store_le32 stale ++ f).drop 4).take (f.length + 4 - 4)))

/-- A concrete, well-behaved codec instance used for witnesses: the block
compressor copies its input (respecting the declared source size), the
decompressor returns the source bytes clipped to the destination capacity,
and the frame compressor prefixes a fixed 4-byte native magic. -/
def idCodec : Codec where
  compressBound := fun i => i.toNat + 16
  compressBlock := fun src srcSize _dstCap _isHc => src.take srcSize.toNat
  decompressSafe := fun src _srcSize dstCap =>
    (((min src.length dstCap.toNat : Nat) : Int), src)
  compressFrame := fun src => some ([4, 34, 77, 24] ++ src)

/-- A codec whose block compressor reports failure (C return value 0) and
whose decompressor returns the error value -1. -/
def negCodec : Codec where
  compressBound := fun i => i.toNat + 16
  compressBlock := fun _ _ _ _ => []
  decompressSafe := fun _ _ _ => (-1, [])
  compressFrame := fun _ => none

/-- A codec whose decompressor reports the error value -1 exactly on an
empty source and otherwise restores the source bytes, used to build a batch
holding one corrupt and one clean item. -/
def mixedCodec : Codec where
  compressBound := fun i => i.toNat + 16
  compressBlock := fun src srcSize _dstCap _isHc => src.take srcSize.toNat
  decompressSafe := fun src _srcSize dstCap =>
    if src = [] then (-1, [])
    else (((min src.length dstCap.toNat : Nat) : Int), src)
  compressFrame := fun _ => none

/-- The little-endian header is four bytes long. -/
theorem store_le32_length (x : Nat) : (store_le32 x).length = 4 := rfl

/-- Taking the first four bytes of a header-prefixed buffer yields the
header. -/
theorem take4_store (x : Nat) (rest : List Nat) :
    ((store_le32 x) ++ rest).take 4 = store_le32 x := rfl

/-- Dropping the first four bytes of a header-prefixed buffer yields the
rest. -/
theorem drop4_store (x : Nat) (rest : List Nat) :
    ((store_le32 x) ++ rest).drop 4 = rest := rfl

/-- Reading back a stored header returns the stored value reduced to
`uint32_t` range. -/
theorem load_store (x : Nat) : load_le32 (store_le32 x) = x % 2 ^ 32 := by
  simp only [load_le32, store_le32, List.getD_cons_zero, List.getD_cons_succ]
  omega

/-- The slice `result[hdr_size : compressed_size + hdr_size]` of the frame
buffer returns exactly the native framed output, regardless of the header
value stored in the reserved bytes. -/
theorem frame_slice (v : Nat) (f : List Nat) :
    ((store_le32 v ++ f).drop 4).take (f.length + 4 - 4) = f := by
  rw [drop4_store]
  simp

/-- A slot not named by the order keeps its previous content. -/
theorem runSched_not_mem (c : Codec) (pIsHc : Bool) (inp : List (List Nat))
    (order : List Nat) (slots : Nat → Option (List Nat)) (i : Nat)
    (h : i ∉ order) : runSched c pIsHc inp order slots i = slots i := by
  induction order generalizing slots with
  | nil => rfl
  | cons j rest ih =>
    have hij : i ≠ j := fun e => h (e ▸ List.mem_cons_self j rest)
    have hrest : i ∉ rest := fun hr => h (List.mem_cons_of_mem _ hr)
    rw [runSched, ih _ hrest, slotWrite, if_neg hij]

/-- A slot named by the order ends up holding the frame of its own index,
however often and in whatever position the index occurs. -/
theorem runSched_mem (c : Codec) (pIsHc : Bool) (inp : List (List Nat))
    (order : List Nat) (slots : Nat → Option (List Nat)) (i : Nat)
    (h : i ∈ order) :
    runSched c pIsHc inp order slots i = some (_compress c (inp.getD i []) pIsHc) := by
  induction order generalizing slots with
  | nil => cases h
  | cons j rest ih =>
    by_cases hr : i ∈ rest
    · rw [runSched, ih _ hr]
    · have hij : i = j := by
        rcases List.mem_cons.mp h with h1 | h2
        · exact h1
        · exact absurd h2 hr
      subst hij
      rw [runSched, runSched_not_mem c pIsHc inp rest _ i hr, slotWrite, if_pos rfl]

/-- Reading a list by index over its range is the same as mapping over it. -/
theorem map_range_getD {α β : Type} (g : α → β) (d : α) (l : List α) :
    (List.range l.length).map (fun i => g (l.getD i d)) = l.map g := by
  induction l with
  | nil => rfl
  | cons a t ih =>
    rw [List.length_cons, List.range_succ_eq_map, List.map_cons, List.map_map,
      List.map_cons]
    refine congrArg (List.cons (g a)) ?_
    rw [← ih]
    apply List.map_congr_left
    intro i _
    simp [Function.comp]

/-- For any execution order that covers each index exactly once, the batch
compression writes slot `i` from item `i` and the index-ordered read-back
therefore equals the element-wise single-item compression. -/
theorem compressarrSched_eq_map (c : Codec) (l : List (List Nat)) (pIsHc : Bool)
    (order : List Nat) (h : order.Perm (List.range l.length)) :
    compressarrSched c l pIsHc order = l.map (fun s => _compress c s pIsHc) := by
  by_cases h0 : l.length = 0
  · have hl : l = [] := List.length_eq_zero.mp h0
    subst hl
    rfl
  · have key : ∀ i ∈ List.range l.length,
        (runSched c pIsHc l order (fun _ => none) i).getD [] =
          _compress c (l.getD i []) pIsHc := by
      intro i hi
      rw [runSched_mem c pIsHc l order _ i (h.mem_iff.mpr hi)]
      rfl
    calc compressarrSched c l pIsHc order
        = (List.range l.length).map
            (fun i => (runSched c pIsHc l order (fun _ => none) i).getD []) := by
          rw [compressarrSched, if_neg h0]
      _ = (List.range l.length).map (fun i => _compress c (l.getD i []) pIsHc) :=
          List.map_congr_left key
      _ = l.map (fun s => _compress c s pIsHc) :=
          map_range_getD (fun s => _compress c s pIsHc) [] l

/-- C7: batch-equals-map refinement.  For every ordered sequence of buffers
and either mode, `_compressarr` (hence `compressarr` at `pIsHc = false` and
`compressarrHC` at `pIsHc = true`) returns a sequence of the same length
whose element at every index equals the single-item `_compress` of the input
at that index, and any worker execution order that is a permutation of the
index range produces that same result, so output order equals input order
regardless of worker scheduling. -/
theorem c7_batch_refines_map (c : Codec) (l : List (List Nat)) (pIsHc : Bool)
    (order : List Nat) (h : order.Perm (List.range l.length)) :
    _compressarr c l pIsHc = l.map (fun s => _compress c s pIsHc) ∧
    compressarrSched c l pIsHc order = _compressarr c l pIsHc := by
  have h1 := compressarrSched_eq_map c l pIsHc (List.range l.length) (List.Perm.refl _)
  have h2 := compressarrSched_eq_map c l pIsHc order h
  exact ⟨h1, h2.trans h1.symm⟩

/-- Witness for C7: a two-item batch executed in reversed worker order still
equals the element-wise single-item compression. -/
theorem c7_batch_refines_map_witness :
    List.Perm [1, 0] (List.range ([[97], [98, 98]] : List (List Nat)).length) ∧
    (_compressarr idCodec [[97], [98, 98]] false =
        ([[97], [98, 98]] : List (List Nat)).map (fun s => _compress idCodec s false) ∧
      compressarrSched idCodec [[97], [98, 98]] false [1, 0] =
        _compressarr idCodec [[97], [98, 98]] false) :=
  ⟨by decide, c7_batch_refines_map idCodec [[97], [98, 98]] false [1, 0] (by decide)⟩

/-- C9: determinism.  The embedded operations are functions of the codec,
the mode and the input bytes, so two runs on identical inputs agree
byte-for-byte; in particular the batch result is the same for any two worker
execution orders (any permutations of the index range), independent of which
worker finishes first. -/
theorem c9_deterministic (c : Codec) (l : List (List Nat)) (pIsHc : Bool)
    (o1 o2 : List Nat) (h1 : o1.Perm (List.range l.length))
    (h2 : o2.Perm (List.range l.length)) :
    compressarrSched c l pIsHc o1 = compressarrSched c l pIsHc o2 := by
  rw [compressarrSched_eq_map c l pIsHc o1 h1, compressarrSched_eq_map c l pIsHc o2 h2]

/-- Witness for C9: the two-item batch gives identical output under the two
possible worker completion orders. -/
theorem c9_deterministic_witness :
    List.Perm [1, 0] (List.range ([[5], [6, 7]] : List (List Nat)).length) ∧
    compressarrSched idCodec [[5], [6, 7]] true [1, 0] =
      compressarrSched idCodec [[5], [6, 7]] true [0, 1] :=
  ⟨by decide, c9_deterministic idCodec [[5], [6, 7]] true [1, 0] [0, 1]
    (by decide) (by decide)⟩

/-- C10: block batch compression never fails and never shrinks: for every
input sequence `_compressarr` (so `compressarr` and `compressarrHC`) returns
exactly one frame per input item — it is a total function with no error
path and no check of the native compressor's return value. -/
theorem c10_batch_total_length (c : Codec) (l : List (List Nat)) (pIsHc : Bool) :
    (_compressarr c l pIsHc).length = l.length := by
  rw [_compressarr,
    compressarrSched_eq_map c l pIsHc (List.range l.length) (List.Perm.refl _),
    List.length_map]

/-- C8: `compressarrFrame` tolerates per-item native failure by omission:
it always returns (no error path), and the result is exactly the sequence of
native frame outputs of the items on which the native call succeeded, in
input order — failed items are dropped, shrinking the output. -/
theorem c8_frame_batch_omits_failures (c : Codec) (l : List (List Nat)) :
    compressarrFrame c l = l.filterMap (fun s => c.compressFrame s) := by
  by_cases h0 : l.length = 0
  · have hl : l = [] := List.length_eq_zero.mp h0
    subst hl
    rfl
  · rw [compressarrFrame, if_neg h0, List.filterMap_map]
    have hfun : ∀ s ∈ l,
        ((fun r => match r with
          | none => none
          | some f => some (((store_le32 ((l.getLast?.getD []).length % 2 ^ 32) ++ f).drop 4).take
              (f.length + 4 - 4))) ∘ (fun s => c.compressFrame s)) s =
          c.compressFrame s := by
      intro s _
      cases hc : c.compressFrame s with
      | none => simp only [Function.comp, hc]
      | some f =>
        simp only [Function.comp, hc]
        rw [frame_slice]
    exact List.filterMap_congr hfun

/-- C6 (corrected), counterexample to the claim as stated: with a native
codec whose block compression returns 0 (modelled by the empty output),
`_compress` does not fail — there is no failure path at all — and returns
the bare 4-byte header frame. -/
theorem c6_counterexample : _compress negCodec [97] false = [1, 0, 0, 0] := by
  decide

/-- C6 (corrected, amended): `compress` / `compressHC` never raise; whenever
the native call returns zero the result is the header-only frame for the
input length. -/
theorem c6_no_failure_path (c : Codec) (p : List Nat) (pIsHc : Bool)
    (hz : c.compressBlock p (toInt32 (p.length % 2 ^ 32))
        (c.compressBound (toInt32 (p.length % 2 ^ 32))) pIsHc = []) :
    _compress c p pIsHc = store_le32 (p.length % 2 ^ 32) := by
  rw [_compress]
  simp only [hz, List.append_nil]

/-- Witness for the amended C6: the zero-returning codec on a one-byte input
yields the bare header frame. -/
theorem c6_no_failure_path_witness :
    negCodec.compressBlock [97] (toInt32 (([97] : List Nat).length % 2 ^ 32))
        (negCodec.compressBound (toInt32 (([97] : List Nat).length % 2 ^ 32))) false = [] ∧
    _compress negCodec [97] false = store_le32 (([97] : List Nat).length % 2 ^ 32) :=
  ⟨by decide, c6_no_failure_path negCodec [97] false (by decide)⟩

/-- C3 (code_bug), the code evaluated at the failing input: `compressFrame`
on the five-byte buffer "hello", with a succeeding native frame compressor,
returns the native framed bytes themselves — the 4-byte original-length
header that the code stores into the reserved bytes is discarded by the
slice `result[hdr_size : compressed_size + hdr_size]`, so the first four
returned bytes decode to the native frame's own leading bytes, not to the
original length 5. -/
theorem c3_header_not_prefixed :
    compressFrame idCodec [104, 101, 108, 108, 111] =
      some [4, 34, 77, 24, 104, 101, 108, 108, 111] ∧
    load_le32 (([4, 34, 77, 24, 104, 101, 108, 108, 111] : List Nat).take 4) ≠
      ([104, 101, 108, 108, 111] : List Nat).length := by
  decide

/-- `decompress` is the per-item decompression body followed by the
return-value check: it raises the generic exception iff the `uint32_t` image
of the native return value differs from the header value, and otherwise
returns the first `original_size` bytes of the destination buffer. -/
theorem decompress_eq_decompItem (c : Codec) (oob p : List Nat) :
    decompress c oob p =
      if (decompItem c oob p).1 % (2 ^ 32 : Int) ≠ ((decompItem c oob p).2.2 : Int)
      then Except.error "Error decompressing"
      else Except.ok ((decompItem c oob p).2.1.take (decompItem c oob p).2.2) := rfl

/-- With a single worker thread the lastprivate flag is that thread's own
copy and its chunk is the whole index range, so every per-item failure makes
the whole call raise and the error value carries no buffers — the behavior
the spec requires of every thread count. -/
theorem decompressarr_single_thread (c : Codec) (oobF : Nat → List Nat)
    (l : List (List Nat)) (i : Nat) (hi : i < l.length)
    (hflag : itemFailed (decompItem c (oobF i) (l.getD i [])) = true) :
    decompressarr c oobF 0 l = Except.error "Error decompressing array" := by
  have h0 : ¬l.length = 0 := by omega
  have hany : ((List.range l.length).drop 0).any
      (fun j => itemFailed (decompItem c (oobF j) (l.getD j []))) = true := by
    rw [List.drop_zero]
    exact List.any_eq_true.mpr ⟨i, List.mem_range.mpr hi, hflag⟩
  unfold decompressarr
  rw [if_neg h0]
  simp only [hany, if_true]

/-- C2 (code_bug), the code evaluated at the failing input: in the two-item
batch whose first frame fails its native decompression (return value -1,
caught by the per-item check) while the second decompresses cleanly, a
two-thread static schedule gives the thread executing the last iteration the
chunk starting at index 1.  The `error = -1` flag is a plain assignment in
the prange body and hence lastprivate, so the value read after the join
barrier is that thread's private copy: the failure of item 0 never reaches
the `error == -1` test, and the call returns all the buffers — the garbage
buffer of the failed item included — instead of raising the batch error. -/
theorem c2_flag_lost :
    itemFailed (decompItem mixedCodec [] [0, 0, 0, 0]) = true ∧
    decompressarr mixedCodec (fun _ => []) 1 [[0, 0, 0, 0], [1, 0, 0, 0, 9]] =
      Except.ok [[], [9]] :=
  ⟨by decide, rfl⟩

/-- C4 (corrected, amended): for a frame of length at least 4, `decompress`
raises exactly when the `uint32_t` image of the native return value (the C
comparison converts the `int` to `uint32_t`) differs from the declared
target length; the declared target is the little-endian header; and on the
success path the returned buffer has exactly the declared length (the
destination buffer holds at least that many bytes). -/
theorem c4_size_mismatch (c : Codec) (oob p : List Nat) (h4 : 4 ≤ p.length) :
    (decompress c oob p = Except.error "Error decompressing" ↔
      (decompItem c oob p).1 % (2 ^ 32 : Int) ≠ ((decompItem c oob p).2.2 : Int)) ∧
    (decompItem c oob p).2.2 = load_le32 (p.take 4) ∧
    (∀ out, decompress c oob p = Except.ok out →
      (decompItem c oob p).2.2 ≤ (decompItem c oob p).2.1.length →
      out.length = (decompItem c oob p).2.2) := by
  refine ⟨?_, ?_, ?_⟩
  · by_cases hc : (decompItem c oob p).1 % (2 ^ 32 : Int) = ((decompItem c oob p).2.2 : Int)
    · rw [decompress_eq_decompItem, if_neg (not_not_intro hc)]
      exact iff_of_false (fun h => Except.noConfusion h) (not_not_intro hc)
    · rw [decompress_eq_decompItem, if_pos hc]
      exact iff_of_true rfl hc
  · show load_le32 ((p ++ oob).take 4) = load_le32 (p.take 4)
    rw [List.take_append_of_le_length h4]
  · intro out hout hbuf
    by_cases hc : (decompItem c oob p).1 % (2 ^ 32 : Int) = ((decompItem c oob p).2.2 : Int)
    · rw [decompress_eq_decompItem, if_neg (not_not_intro hc)] at hout
      have hval : (decompItem c oob p).2.1.take (decompItem c oob p).2.2 = out :=
        Except.ok.inj hout
      rw [← hval, List.length_take]
      exact Nat.min_eq_left hbuf
    · rw [decompress_eq_decompItem, if_pos hc] at hout
      cases hout

/-- Witness for the amended C4: a well-formed two-byte frame declaring one
byte of payload decompresses to exactly one byte, and the characterization
instantiates. -/
theorem c4_size_mismatch_witness :
    4 ≤ ([1, 0, 0, 0, 9] : List Nat).length ∧
    ((decompress idCodec [] [1, 0, 0, 0, 9] = Except.error "Error decompressing" ↔
      (decompItem idCodec [] [1, 0, 0, 0, 9]).1 % (2 ^ 32 : Int) ≠
        ((decompItem idCodec [] [1, 0, 0, 0, 9]).2.2 : Int)) ∧
    (decompItem idCodec [] [1, 0, 0, 0, 9]).2.2 =
      load_le32 (([1, 0, 0, 0, 9] : List Nat).take 4) ∧
    (∀ out, decompress idCodec [] [1, 0, 0, 0, 9] = Except.ok out →
      (decompItem idCodec [] [1, 0, 0, 0, 9]).2.2 ≤
        (decompItem idCodec [] [1, 0, 0, 0, 9]).2.1.length →
      out.length = (decompItem idCodec [] [1, 0, 0, 0, 9]).2.2)) :=
  ⟨by decide, c4_size_mismatch idCodec [] [1, 0, 0, 0, 9] (by decide)⟩

/-- C4 (corrected), counterexample to the claim as stated: a frame whose
header declares the target length 4294967295, fed to a native decompressor
that returns the error value -1, is treated as a success (the C comparison
converts -1 to the `uint32_t` 4294967295), so `decompress` returns a buffer
instead of raising, although the native return value differs from the
declared target length. -/
theorem c4_counterexample :
    decompress negCodec [] [255, 255, 255, 255] = Except.ok [] ∧
    (decompItem negCodec [] [255, 255, 255, 255]).1 ≠
      ((decompItem negCodec [] [255, 255, 255, 255]).2.2 : Int) :=
  ⟨rfl, by decide⟩

/-- C5 (corrected, amended): `decompress` performs no header-length check
and has no distinct header error.  For every input shorter than 4 bytes it
reads the 4-byte header from the memory that follows the input (`oob`) and
passes a negative source size to the native decompressor; the only failure
it can raise is the generic decompression error, exactly when the converted
native return value differs from the out-of-bounds header value. -/
theorem c5_no_header_check (c : Codec) (oob p : List Nat) (hshort : p.length < 4) :
    toInt32 ((p.length % 2 ^ 32 + 2 ^ 32 - 4) % 2 ^ 32) < 0 ∧
    (decompress c oob p = Except.error "Error decompressing" ↔
      (decompItem c oob p).1 % (2 ^ 32 : Int) ≠ ((decompItem c oob p).2.2 : Int)) := by
  constructor
  · unfold toInt32
    split_ifs with hb
    · exfalso
      omega
    · omega
  · by_cases hc : (decompItem c oob p).1 % (2 ^ 32 : Int) = ((decompItem c oob p).2.2 : Int)
    · rw [decompress_eq_decompItem, if_neg (not_not_intro hc)]
      exact iff_of_false (fun h => Except.noConfusion h) (not_not_intro hc)
    · rw [decompress_eq_decompItem, if_pos hc]
      exact iff_of_true rfl hc

/-- Witness for the amended C5: the empty input with four zero bytes of
adjacent memory. -/
theorem c5_no_header_check_witness :
    ([] : List Nat).length < 4 ∧
    (toInt32 ((([] : List Nat).length % 2 ^ 32 + 2 ^ 32 - 4) % 2 ^ 32) < 0 ∧
    (decompress idCodec [0, 0, 0, 0] [] = Except.error "Error decompressing" ↔
      (decompItem idCodec [0, 0, 0, 0] []).1 % (2 ^ 32 : Int) ≠
        ((decompItem idCodec [0, 0, 0, 0] []).2.2 : Int))) :=
  ⟨by decide, c5_no_header_check idCodec [0, 0, 0, 0] [] (by decide)⟩

/-- C5 (corrected), counterexample to the claim as stated: on the empty
input (shorter than 4 bytes) `decompress` does not fail at all — with zero
bytes in the adjacent memory and a native decompressor answering 0 for the
degenerate call, it returns an empty buffer. -/
theorem c5_counterexample : decompress idCodec [0, 0, 0, 0] [] = Except.ok [] := rfl

/-- C1 (corrected, amended): block round-trip for buffers whose length fits
the 4-byte header (< 2^32).  If the native codec round-trips the compressed
payload (returning the original length and the original bytes for the
payload the compressor produced, at the capacities the code passes), then
`decompress (compress b) = b` — in either mode, so for both `compress` and
`compressHC`. -/
theorem c1_roundtrip (c : Codec) (oob b : List Nat) (pIsHc : Bool)
    (h1 : b.length < 2 ^ 32)
    (h2 : (c.compressBlock b (toInt32 b.length)
        (c.compressBound (toInt32 b.length)) pIsHc).length + 4 < 2 ^ 31)
    (h3 : c.decompressSafe
        (c.compressBlock b (toInt32 b.length) (c.compressBound (toInt32 b.length)) pIsHc)
        ((c.compressBlock b (toInt32 b.length)
          (c.compressBound (toInt32 b.length)) pIsHc).length : Int)
        (toInt32 b.length) = ((b.length : Int), b)) :
    decompress c oob (_compress c b pIsHc) = Except.ok b := by
  have hmod : b.length % 2 ^ 32 = b.length := Nat.mod_eq_of_lt h1
  have hframe : _compress c b pIsHc =
      store_le32 b.length ++
        c.compressBlock b (toInt32 b.length) (c.compressBound (toInt32 b.length)) pIsHc := by
    rw [_compress]
    simp only [hmod]
  set out := c.compressBlock b (toInt32 b.length) (c.compressBound (toInt32 b.length)) pIsHc
    with hout
  have e1 : (store_le32 b.length ++ out).length % 2 ^ 32 = 4 + out.length := by
    rw [List.length_append, store_le32_length]
    exact Nat.mod_eq_of_lt (by omega)
  have e2 : ((store_le32 b.length ++ out) ++ oob).take 4 = store_le32 b.length := by
    rw [List.append_assoc, take4_store]
  have e3 : load_le32 (store_le32 b.length) = b.length := by rw [load_store, hmod]
  have e4 : (4 + out.length + 2 ^ 32 - 4) % 2 ^ 32 = out.length := by omega
  have e5 : toInt32 out.length = (out.length : Int) := by
    rw [toInt32, if_pos (by omega)]
    rw [Nat.mod_eq_of_lt (by omega)]
  have e7 : (store_le32 b.length ++ out).drop 4 = out := drop4_store _ _
  have hcond : ((b.length : Int)) % ((2 : Int) ^ 32) = ((b.length : Int)) := by
    refine Int.emod_eq_of_lt (Int.natCast_nonneg _) ?_
    exact_mod_cast h1
  rw [hframe]
  unfold decompress
  simp only [e1, e2, e3, e4, e5, e7, h3]
  rw [if_neg (by rw [hcond]; exact not_not_intro rfl), List.take_length]

/-- Witness for the amended C1: a two-byte buffer round-trips through the
well-behaved concrete codec. -/
theorem c1_roundtrip_witness :
    ([104, 105] : List Nat).length < 2 ^ 32 ∧
    decompress idCodec [] (_compress idCodec [104, 105] false) = Except.ok [104, 105] :=
  ⟨by decide, c1_roundtrip idCodec [] [104, 105] false (by decide) (by decide) (by decide)⟩

/-- C1 (corrected), counterexample to the claim as stated: a buffer of
length 2^32 does not round-trip, even through a codec that faithfully stores
and restores every byte it is given, because `_compress` stores the original
length reduced mod 2^32 in the header (here 0) and the native compressor is
invoked with the `int` source size of the same reduced value, so
`decompress` returns the empty buffer. -/
theorem c1_counterexample :
    decompress idCodec [] (_compress idCodec (List.replicate (2 ^ 32) 0) false) ≠
      Except.ok (List.replicate (2 ^ 32) 0) := by
  have hlen : (List.replicate (2 ^ 32) (0 : Nat)).length = 2 ^ 32 :=
    List.length_replicate _ _
  have hfr : _compress idCodec (List.replicate (2 ^ 32) 0) false = [0, 0, 0, 0] := by
    rw [_compress]
    simp only [hlen, Nat.mod_self]
    have hblock : idCodec.compressBlock (List.replicate (2 ^ 32) 0) (toInt32 0)
        (idCodec.compressBound (toInt32 0)) false = [] := by
      show (List.replicate (2 ^ 32) (0 : Nat)).take (toInt32 0).toNat = []
      rw [show (toInt32 0).toNat = 0 from rfl, List.take_zero]
    rw [hblock, List.append_nil]
    rfl
  have hd : decompress idCodec [] [0, 0, 0, 0] = Except.ok [] := rfl
  rw [hfr, hd]
  intro h
  have hnil : ([] : List Nat) = List.replicate (2 ^ 32) 0 := Except.ok.inj h
  have := congrArg List.length hnil
  rw [hlen] at this
  exact absurd this.symm (by norm_num)

end Arctic
